import Mathlib

/-!
Shallow embedding of `neomodel/core.py` (object-graph mapping layer):
property descriptors, structured-node construction, the properties
snapshot, index search / point lookup, index maintenance with
conflict detection, create/save/delete with compensating rollback,
and the memoized category-node factory.
-/

/-- Python values as they appear in instance dictionaries and stores. -/
inductive PyVal where
  | none
  | bool (b : Bool)
  | int (n : Int)
  | str (s : String)
  | method
  | relManager
  | obj (tag : String)
deriving DecidableEq

/-- Python truthiness, used by `if not p` in `NodeIndexManager.search`. -/
def PyVal.truthy : PyVal → Bool
  | PyVal.none => false
  | PyVal.bool b => b
  | PyVal.int n => decide (n ≠ 0)
  | PyVal.str s => decide (s ≠ "")
  | PyVal.method => true
  | PyVal.relManager => true
  | PyVal.obj _ => true

/-- Modelled from the spec: the `Property` descriptor class lives in
`neomodel/properties.py`, which is not part of the mapping file; the spec
gives it `required`, `indexed`, `unique_indexed` flags and a value
validator (`validate(value) -> value | Error`, modelled as a Bool where
`false` means a raised `ValidationError`). -/
structure Property where
  required : Bool
  index : Bool
  unique_index : Bool
  validate : PyVal → Bool

/-- Modelled from the spec: `is_indexed`, used by `search`, is the
"declared, indexed property" test (indexed or unique-indexed). -/
def Property.is_indexed (p : Property) : Bool :=
  p.index || p.unique_index

/-- A class-dict entry: either a `Property` descriptor or a plain
(non-`Property`) class attribute. -/
inductive ClassAttr where
  | prop (p : Property)
  | plain (v : PyVal)

/-- Truthiness of a class attribute (a `Property` instance is truthy). -/
def ClassAttr.truthy : ClassAttr → Bool
  | ClassAttr.prop _ => true
  | ClassAttr.plain v => v.truthy

/-- One class in a node class's method-resolution order: its name, its own
`__dict__` (declaration-order association list), and the optional
`_index_name` override read by `StructuredNodeMeta`. -/
structure NodeClass where
  name : String
  ownDict : List (String × ClassAttr)
  indexNameOverride : Option String

/-- Index name for a class: the `_index_name` override if declared, else
the class name (as assigned by `StructuredNodeMeta.__new__`). -/
def NodeClass.indexName (c : NodeClass) : String :=
  c.indexNameOverride.getD c.name

/-- Exceptions raised by the mapping layer. -/
inductive Err where
  | noSuchProperty (k : String)
  | propertyNotIndexed (k : String)
  | attributeError (k : String)
  | validationError (k : String)
  | requiredProperty (k : String)
  | notUnique (msg : String)
  | doesNotExist (clsName : String) (msg : String)
  | multipleNodes (msg : String)
  | usageError (msg : String)
  | typeError (msg : String)
deriving DecidableEq

/-- `getattr(cls, k)` over the method-resolution order (first hit wins). -/
def classGetAttr (mro : List NodeClass) (k : String) : Option ClassAttr :=
  mro.findSome? (fun c => (c.ownDict.find? (fun kv => decide (kv.1 = k))).map (·.2))

/-- `StructuredNode.get_property` (core.py:105-113).  On `AttributeError`
it raises `NoSuchProperty`; when the attribute exists but is not a
`Property`, the source builds `NoSuchProperty(name + " is not a Property
of " + cls.__name__)` WITHOUT a `raise` statement, so the non-`Property`
attribute is returned to the caller. -/
def get_property (mro : List NodeClass) (k : String) : Except Err ClassAttr :=
  match classGetAttr mro k with
  | Option.none => Except.error (Err.noSuchProperty k)
  | Option.some a => Except.ok a

/-- A record instance: its `__dict__` (without the store handle) and the
`__node__` store handle. -/
structure Instance where
  dict : List (String × PyVal)
  node : Option Nat
deriving DecidableEq

/-- Python-dict assignment: update in place when the key exists, append
otherwise. -/
def setD (d : List (String × PyVal)) (k : String) (v : PyVal) : List (String × PyVal) :=
  if d.any (fun kv => decide (kv.1 = k)) then
    d.map (fun kv => if kv.1 = k then (k, v) else kv)
  else d ++ [(k, v)]

/-- Dict lookup. -/
def lookupD (d : List (String × PyVal)) (k : String) : Option PyVal :=
  (d.find? (fun kv => decide (kv.1 = k))).map (·.2)

/-- `key.startswith('_')`: the first character is an underscore (written
over the character list so it evaluates structurally). -/
def startsUnderscore (k : String) : Bool :=
  match k.data with
  | [] => false
  | c :: _ => decide (c = '_')

/-- `StructuredNode.__setattr__` (core.py:136-146): underscore names are
set directly; otherwise the property descriptor (when one resolves) first
validates the value; an unknown or non-`Property` name is set unchecked
(a non-`Property` attribute has no callable `validate`). -/
def setattrI (mro : List NodeClass) (inst : Instance) (k : String) (v : PyVal) :
    Except Err Instance :=
  if startsUnderscore k then Except.ok { inst with dict := setD inst.dict k v }
  else
    match get_property mro k with
    | Except.error _ => Except.ok { inst with dict := setD inst.dict k v }
    | Except.ok (ClassAttr.plain _) => Except.ok { inst with dict := setD inst.dict k v }
    | Except.ok (ClassAttr.prop p) =>
        if p.validate v then Except.ok { inst with dict := setD inst.dict k v }
        else Except.error (Err.validationError k)

/-- The keyword loop of `StructuredNode.__init__` (core.py:120-121):
`setattr(self, key, value)` for every supplied pair. -/
def applyKwargs (mro : List NodeClass) (kwargs : List (String × PyVal)) :
    Except Err Instance :=
  kwargs.foldlM (fun inst kv => setattrI mro inst kv.1 kv.2) ⟨[], Option.none⟩

/-- The defaults loop of `StructuredNode.__init__` (core.py:124-131): it
walks `self.__class__.__dict__` (the concrete class's OWN dict only),
skips underscore keys, and for each unsupplied `Property` raises
`RequiredProperty` when required, else stores the null marker. -/
def fillDefaults : List (String × ClassAttr) → Instance → Except Err Instance
  | [], inst => Except.ok inst
  | kv :: more, inst =>
      if startsUnderscore kv.1 then fillDefaults more inst
      else
        match kv.2 with
        | ClassAttr.prop p =>
            if (lookupD inst.dict kv.1).isSome then fillDefaults more inst
            else if p.required then Except.error (Err.requiredProperty kv.1)
            else fillDefaults more { inst with dict := setD inst.dict kv.1 PyVal.none }
        | ClassAttr.plain _ => fillDefaults more inst

/-- Own `__dict__` of the concrete class (head of the mro). -/
def ownOf (mro : List NodeClass) : List (String × ClassAttr) :=
  match mro with
  | c :: _ => c.ownDict
  | [] => []

/-- Lookup in the concrete class's own dict. -/
def lookupOwn (mro : List NodeClass) (k : String) : Option ClassAttr :=
  ((ownOf mro).find? (fun kv => decide (kv.1 = k))).map (·.2)

/-- Name of the concrete class. -/
def clsNameOf (mro : List NodeClass) : String :=
  match mro with
  | c :: _ => c.name
  | [] => ""

/-- Index name of the concrete class. -/
def idxNameOf (mro : List NodeClass) : String :=
  match mro with
  | c :: _ => c.indexName
  | [] => ""

/-- `StructuredNode.__init__` (core.py:119-134): apply the keyword
assignments, fill defaults from the concrete class's own dict, then set
`self.__node__ = None`. -/
def initNode (mro : List NodeClass) (kwargs : List (String × PyVal)) :
    Except Err Instance := do
  let inst ← applyKwargs mro kwargs
  let inst ← fillDefaults (ownOf mro) inst
  Except.ok { inst with node := Option.none }

/-- Value-kind tests used by the `properties` filter. -/
def PyVal.isMethod : PyVal → Bool
  | PyVal.method => true
  | _ => false

/-- Relationship-manager test used by the `properties` filter. -/
def PyVal.isRelManager : PyVal → Bool
  | PyVal.relManager => true
  | _ => false

/-- `StructuredNode.properties` (core.py:148-159): every `__dict__` entry
whose key does not start with an underscore, whose value is neither a
method nor a relationship manager, and whose value is not `None`. -/
def propertiesOf (inst : Instance) : List (String × PyVal) :=
  inst.dict.filter
    (fun kv =>
      !(startsUnderscore kv.1) && !(kv.2.isMethod) && !(kv.2.isRelManager)
        && !(decide (kv.2 = PyVal.none)))

/-- A node in the remote store. -/
structure StoreNode where
  id : Nat
  props : List (String × PyVal)
deriving DecidableEq

/-- A relationship in the remote store. -/
structure StoreRel where
  src : Nat
  dst : Nat
  typ : String
deriving DecidableEq

/-- A secondary-index entry: `(index name, key, value) -> node id`. -/
structure IndexEntry where
  idx : String
  key : String
  val : PyVal
  nodeId : Nat
deriving DecidableEq

/-- The remote graph store, with the capability flag for the atomic
add-or-fail index primitive and a remote-round-trip counter. -/
structure Store where
  nodes : List StoreNode
  rels : List StoreRel
  entries : List IndexEntry
  nextId : Nat
  supportsAddOrFail : Bool
  categoryIdx : List (String × Nat)
  remoteCalls : Nat
deriving DecidableEq

/-- Batch operations built by `_update_index`. -/
inductive BatchOp where
  | addOrFail (idx : String) (key : String) (val : PyVal) (nodeId : Nat)
  | getOrAdd (idx : String) (key : String) (val : PyVal) (nodeId : Nat)
  | add (idx : String) (key : String) (val : PyVal) (nodeId : Nat)
deriving DecidableEq

/-- One result line of a submitted batch. -/
structure BatchResult where
  status : Nat
  uri : String
deriving DecidableEq

/-- Does the index already hold an entry for this `(index, key, value)`? -/
def hasEntry (s : Store) (idx : String) (key : String) (v : PyVal) : Bool :=
  s.entries.any (fun e => decide (e.idx = idx ∧ e.key = key ∧ e.val = v))

/-- Add an index entry. -/
def addEntry (s : Store) (idx : String) (key : String) (v : PyVal) (nid : Nat) : Store :=
  { s with entries := s.entries ++ [⟨idx, key, v, nid⟩] }

/-- Resource identifier reported with a conflict. -/
def entryUri (idx : String) (key : String) : String :=
  idx ++ "/" ++ key

/-- Modelled from the spec: batch submission against the store
(`submit_batch(ops) -> list<BatchResult>`; the store client is an
external collaborator).  `addOrFail` raises a resource conflict (the
error string is the offending uri) when the slot is taken; `getOrAdd`
answers status 200 for an existing entry (the repurposed "value already
indexed" success code) and 201 when it adds; `add` always adds.  A
conflicting batch leaves the store unchanged (REST batches are atomic). -/
def submitOps : Store → List BatchOp → Except String (Store × List BatchResult)
  | s, [] => Except.ok (s, [])
  | s, BatchOp.addOrFail idx key v nid :: more =>
      if hasEntry s idx key v then Except.error (entryUri idx key)
      else do
        let (s', rs) ← submitOps (addEntry s idx key v nid) more
        Except.ok (s', BatchResult.mk 201 (entryUri idx key) :: rs)
  | s, BatchOp.getOrAdd idx key v nid :: more =>
      if hasEntry s idx key v then do
        let (s', rs) ← submitOps s more
        Except.ok (s', BatchResult.mk 200 (entryUri idx key) :: rs)
      else do
        let (s', rs) ← submitOps (addEntry s idx key v nid) more
        Except.ok (s', BatchResult.mk 201 (entryUri idx key) :: rs)
  | s, BatchOp.add idx key v nid :: more => do
      let (s', rs) ← submitOps (addEntry s idx key v nid) more
      Except.ok (s', BatchResult.mk 201 (entryUri idx key) :: rs)

/-- Attribute lookup on one class's own `__dict__` (the form `getattr`
takes inside `_update_index`, where the key is guarded to be in
`cls.__dict__`). -/
def lookupAttrCls (cls : NodeClass) (k : String) : Option ClassAttr :=
  (cls.ownDict.find? (fun kv => decide (kv.1 = k))).map (·.2)

/-- The per-key body of the batch-building loop in `_update_index`
(core.py:181-190): keys absent from `cls.__dict__` are skipped; for a
`Property`, unique-indexed keys use `add_indexed_node_or_fail`, falling
back to `get_or_add_indexed_node` when the client raises
`NotImplementedError` (no atomic support); plainly indexed keys use
`add_indexed_node`; a non-`Property` class attribute has no
`unique_index` field, so touching it raises `AttributeError`. -/
def buildOp (s : Store) (cls : NodeClass) (k : String) (v : PyVal) (nid : Nat) :
    Except Err (Option BatchOp) :=
  match lookupAttrCls cls k with
  | Option.none => Except.ok Option.none
  | Option.some (ClassAttr.plain _) => Except.error (Err.attributeError k)
  | Option.some (ClassAttr.prop p) =>
      if p.unique_index then
        Except.ok (Option.some
          (if s.supportsAddOrFail then BatchOp.addOrFail cls.indexName k v nid
           else BatchOp.getOrAdd cls.indexName k v nid))
      else if p.index then Except.ok (Option.some (BatchOp.add cls.indexName k v nid))
      else Except.ok Option.none

/-- The batch built for one ancestor class from the supplied properties. -/
def buildBatch (s : Store) (cls : NodeClass) (props : List (String × PyVal)) (nid : Nat) :
    Except Err (List BatchOp) :=
  props.foldlM
    (fun acc kv => do
      let o ← buildOp s cls kv.1 kv.2 nid
      Except.ok (acc ++ o.toList))
    []

/-- The result scan of `_update_index` (core.py:192-194): the first batch
result with status 200 is reported as a uniqueness conflict. -/
def scanResults : List BatchResult → Option String
  | [] => Option.none
  | r :: rs => if r.status = 200 then Option.some r.uri else scanResults rs

/-- One ancestor step of `_update_index`: build the batch, submit it, and
translate either a raised resource conflict or a 200-status result into
`NotUnique` (core.py:180-196). -/
def updateClass (s : Store) (cls : NodeClass) (props : List (String × PyVal)) (nid : Nat) :
    Store × Option Err :=
  match buildBatch s cls props nid with
  | Except.error e => (s, Option.some e)
  | Except.ok ops =>
      match submitOps s ops with
      | Except.error uri =>
          (s, Option.some (Err.notUnique ("A supplied value is not unique" ++ uri)))
      | Except.ok (s', rs) =>
          match scanResults rs with
          | Option.some uri =>
              (s', Option.some (Err.notUnique ("A supplied value is not unique" ++ uri)))
          | Option.none => (s', Option.none)

/-- `StructuredNode._update_index` (core.py:176-196): walk the mro,
breaking at the classes named `StructuredNode` or `ReadOnlyNode`, and run
one batch per ancestor; the first error aborts the walk. -/
def _update_index : Store → List NodeClass → List (String × PyVal) → Nat →
    Store × Option Err
  | s, [], _, _ => (s, Option.none)
  | s, cls :: more, props, nid =>
      if cls.name = "StructuredNode" ∨ cls.name = "ReadOnlyNode" then (s, Option.none)
      else
        match updateClass s cls props nid with
        | (s', Option.some e) => (s', Option.some e)
        | (s', Option.none) => _update_index s' more props nid

/-- The ancestors actually processed: the mro up to (excluding) the first
root base class. -/
def activeAncestors (mro : List NodeClass) : List NodeClass :=
  mro.takeWhile (fun c => !(decide (c.name = "StructuredNode" ∨ c.name = "ReadOnlyNode")))

/-- The break-free form of the ancestor walk, used to state that
`_update_index` stops before the root base type. -/
def updateClasses : Store → List NodeClass → List (String × PyVal) → Nat →
    Store × Option Err
  | s, [], _, _ => (s, Option.none)
  | s, cls :: more, props, nid =>
      match updateClass s cls props nid with
      | (s', Option.some e) => (s', Option.some e)
      | (s', Option.none) => updateClasses s' more props nid

/-- The in-process category node handed out by `category_factory`. -/
structure CategoryNode where
  name : String
  nodeId : Nat
deriving DecidableEq

/-- Process-wide state: the store plus `category_factory.cache`. -/
structure Globals where
  store : Store
  cache : List (String × CategoryNode)
deriving DecidableEq

/-- Modelled from the spec: the store-side get-or-create against the
`Category` index (`category_index.get_or_create('category', name, ...)`),
idempotent keyed by name, one remote round trip per call. -/
def storeCategoryGetOrCreate (s : Store) (name : String) : Store × Nat :=
  match s.categoryIdx.find? (fun kv => decide (kv.1 = name)) with
  | Option.some kv => ({ s with remoteCalls := s.remoteCalls + 1 }, kv.2)
  | Option.none =>
      let nid := s.nextId
      ({ s with
          nodes := s.nodes ++ [⟨nid, [("category", PyVal.str name)]⟩],
          nextId := nid + 1,
          categoryIdx := s.categoryIdx ++ [(name, nid)],
          remoteCalls := s.remoteCalls + 1 }, nid)

/-- `category_factory` (core.py:233-247): on a cache miss, get-or-create
the category node remotely and cache the wrapper; on a hit, return the
cached object with no remote call. -/
def category_factory (g : Globals) (name : String) : CategoryNode × Globals :=
  match g.cache.find? (fun kv => decide (kv.1 = name)) with
  | Option.some kv => (kv.2, g)
  | Option.none =>
      let (s', nid) := storeCategoryGetOrCreate g.store name
      let c : CategoryNode := ⟨name, nid⟩
      (c, { store := s', cache := g.cache ++ [(name, c)] })

/-- Modelled from the spec: `self.client.create(props, (category, REL, 0))`
writes the node and the category relationship in one remote call and
returns the new node handle. -/
def clientCreate (s : Store) (props : List (String × PyVal)) (catId : Nat)
    (relType : String) : Store × Nat :=
  let nid := s.nextId
  ({ s with
      nodes := s.nodes ++ [⟨nid, props⟩],
      rels := s.rels ++ [⟨catId, nid, relType⟩],
      nextId := nid + 1,
      remoteCalls := s.remoteCalls + 1 }, nid)

/-- `StructuredNode.delete` (core.py:207-215): with a store handle, delete
the node and all its relationships in one batch and clear the handle;
without one, raise a usage error. -/
def deleteInst (s : Store) (inst : Instance) : Store × Instance × Option Err :=
  match inst.node with
  | Option.some nid =>
      ({ s with
          nodes := s.nodes.filter (fun n => !(decide (n.id = nid))),
          rels := s.rels.filter (fun r => !(decide (r.src = nid ∨ r.dst = nid))),
          remoteCalls := s.remoteCalls + 1 },
       { inst with node := Option.none }, Option.none)
  | Option.none =>
      (s, inst, Option.some (Err.usageError "Node has not been saved so cannot be deleted"))

/-- `StructuredNode._create` (core.py:161-174): create the node linked to
its category, then update the indexes; if the index update raises, delete
the just-created node via `self.delete()` and re-raise the original
error.  (Line 166 builds a failed-create `Exception` without raising it,
so node creation is never reported as failed.) -/
def _create (g : Globals) (mro : List NodeClass) (inst : Instance)
    (props : List (String × PyVal)) : Globals × Instance × Option Err :=
  let (cat, g1) := category_factory g (clsNameOf mro)
  let (s2, nid) := clientCreate g1.store props cat.nodeId (clsNameOf mro).toUpper
  let inst1 := { inst with node := Option.some nid }
  match _update_index s2 mro props nid with
  | (s3, Option.none) => ({ g1 with store := s3 }, inst1, Option.none)
  | (s3, Option.some e) =>
      let (s4, inst2, _) := deleteInst s3 inst1
      ({ g1 with store := s4 }, inst2, Option.some e)

/-- `node.set_properties(...)`: overwrite all store-side properties. -/
def storeSetProps (s : Store) (nid : Nat) (props : List (String × PyVal)) : Store :=
  { s with
      nodes := s.nodes.map (fun n => if n.id = nid then { n with props := props } else n),
      remoteCalls := s.remoteCalls + 1 }

/-- `index.remove(entity=node)`: drop every entry of the named index that
points at this node. -/
def indexRemoveEntity (s : Store) (idx : String) (nid : Nat) : Store :=
  { s with
      entries := s.entries.filter (fun e => !(decide (e.idx = idx ∧ e.nodeId = nid))),
      remoteCalls := s.remoteCalls + 1 }

/-- `StructuredNode.save` (core.py:198-205): with a store handle, push the
`properties` snapshot, drop the node's entries from the concrete class's
own index, and re-run `_update_index`; without one, run `_create`; return
`self`. -/
def save (g : Globals) (mro : List NodeClass) (inst : Instance) :
    Globals × Instance × Option Err :=
  match inst.node with
  | Option.some nid =>
      let props := propertiesOf inst
      let s1 := storeSetProps g.store nid props
      let s2 := indexRemoveEntity s1 (idxNameOf mro) nid
      match _update_index s2 mro props nid with
      | (s3, Option.none) => ({ g with store := s3 }, inst, Option.none)
      | (s3, Option.some e) => ({ g with store := s3 }, inst, Option.some e)
  | Option.none => _create g mro inst (propertiesOf inst)

/-- The per-key validation loop at the top of `NodeIndexManager.search`
(core.py:44-50): `get_property`, the truthiness test raising
`NoSuchProperty(k)`, the `is_indexed` access (an `AttributeError` on a
truthy non-`Property` attribute), the `PropertyNotIndexed` test, and the
value validation — all before any remote call. -/
def checkKwargs : List NodeClass → List (String × PyVal) → Option Err
  | _, [] => Option.none
  | mro, (k, v) :: more =>
      match get_property mro k with
      | Except.error e => Option.some e
      | Except.ok a =>
          if !a.truthy then Option.some (Err.noSuchProperty k)
          else
            match a with
            | ClassAttr.plain _ => Option.some (Err.attributeError k)
            | ClassAttr.prop p =>
                if !p.is_indexed then Option.some (Err.propertyNotIndexed k)
                else if !(p.validate v) then Option.some (Err.validationError k)
                else checkKwargs mro more

/-- Modelled from the spec: evaluation of the conjoined equality query
against the named index (the lucene query builder is an external
collaborator); answers the distinct node ids carrying an entry for every
criterion. -/
def indexQuery (s : Store) (idx : String) (kwargs : List (String × PyVal)) : List Nat :=
  (((s.entries.filter (fun e => decide (e.idx = idx))).map (·.nodeId)).dedup).filter
    (fun nid =>
      kwargs.all (fun kv =>
        s.entries.any (fun e =>
          decide (e.idx = idx ∧ e.key = kv.1 ∧ e.val = kv.2 ∧ e.nodeId = nid))))

/-- `client.get_properties` for one matched node. -/
def nodePropsOf (s : Store) (nid : Nat) : List (String × PyVal) :=
  match s.nodes.find? (fun n => decide (n.id = nid)) with
  | Option.some n => n.props
  | Option.none => []

/-- The reconstruction step of `search` (core.py:60-62): `neonode =
self.node_class(**properties)` — the NORMAL constructor, with required
and per-value validation — then `neonode.__node__ = node`. -/
def reconstructOne (s : Store) (mro : List NodeClass) (nid : Nat) : Except Err Instance :=
  match initNode mro (nodePropsOf s nid) with
  | Except.error e => Except.error e
  | Except.ok inst => Except.ok { inst with node := Option.some nid }

/-- `NodeIndexManager.search` in its keyword form (core.py:42-63):
validate every criterion, run the index query, and rebuild one instance
per matched node.  With no keyword criteria the source evaluates
`reduce` over an empty list, a `TypeError`. -/
def search (s : Store) (mro : List NodeClass) (kwargs : List (String × PyVal)) :
    Except Err (List Instance) :=
  match checkKwargs mro kwargs with
  | Option.some e => Except.error e
  | Option.none =>
      if kwargs.isEmpty then
        Except.error (Err.typeError "reduce of empty sequence with no initial value")
      else
        (indexQuery s (idxNameOf mro) kwargs).foldlM
          (fun acc nid => do
            let i ← reconstructOne s mro nid
            Except.ok (acc ++ [i]))
          []

/-- `NodeIndexManager.get` (core.py:65-73): delegate to `search`; one
match is returned, several raise the generic multiplicity `Exception`,
none raises the node class's own `DoesNotExist`. -/
def NodeIndexManager.get (s : Store) (mro : List NodeClass) (kwargs : List (String × PyVal)) :
    Except Err Instance :=
  match search s mro kwargs with
  | Except.error e => Except.error e
  | Except.ok ns =>
      if ns.length = 1 then Except.ok (ns.headD ⟨[], Option.none⟩)
      else if 1 < ns.length then
        Except.error (Err.multipleNodes "Multiple nodes returned from query, expected one")
      else
        Except.error (Err.doesNotExist (clsNameOf mro) "Cant find node in index matching query")

/-- Basic store well-formedness: allocated node ids lie below `nextId`. -/
def StoreWF (s : Store) : Bool :=
  s.nodes.all (fun n => decide (n.id < s.nextId))

/-- The index entry an executed batch operation writes (or finds). -/
def opEntry : BatchOp → IndexEntry
  | BatchOp.addOrFail idx key v nid => ⟨idx, key, v, nid⟩
  | BatchOp.getOrAdd idx key v nid => ⟨idx, key, v, nid⟩
  | BatchOp.add idx key v nid => ⟨idx, key, v, nid⟩

/-- A validator accepting every value (the spec leaves per-type semantic
constraints out of scope of this core). -/
def vAll : PyVal → Bool := fun _ => true

/-- The root base class sentinel in every mro. -/
def snCls : NodeClass := ⟨"StructuredNode", [], Option.none⟩

/-- A required, non-indexed property. -/
def pReq : Property := ⟨true, false, false, vAll⟩

/-- A unique-indexed property. -/
def pUniq : Property := ⟨false, false, true, vAll⟩

/-- A plainly indexed property. -/
def pIdx : Property := ⟨false, true, false, vAll⟩

/-- A record type whose class dict holds a truthy non-`Property`
attribute named `flag`. -/
def clsFlag : NodeClass := ⟨"Gadget", [("flag", ClassAttr.plain (PyVal.int 1))], Option.none⟩

/-- Mro of `Gadget`. -/
def mroFlag : List NodeClass := [clsFlag, snCls]

/-- An empty store supporting the atomic add-or-fail primitive. -/
def emptyStore : Store := ⟨[], [], [], 0, true, [], 0⟩

/-- A base record type declaring a required property `name`. -/
def clsParent : NodeClass := ⟨"Person", [("name", ClassAttr.prop pReq)], Option.none⟩

/-- A subclass declaring nothing of its own. -/
def clsChild : NodeClass := ⟨"Student", [], Option.none⟩

/-- Mro of the subclass: `name` is a declared (inherited) property. -/
def mroChild : List NodeClass := [clsChild, clsParent, snCls]

/-- A record type declaring no properties at all. -/
def clsThing : NodeClass := ⟨"Thing", [], Option.none⟩

/-- Mro of `Thing`. -/
def mroThing : List NodeClass := [clsThing, snCls]

/-- `Person` with a required unique `name` and an indexed `age`. -/
def clsPerson : NodeClass :=
  ⟨"Person", [("name", ClassAttr.prop ⟨true, false, true, vAll⟩),
              ("age", ClassAttr.prop pIdx)], Option.none⟩

/-- Mro of `Person`. -/
def mroPerson : List NodeClass := [clsPerson, snCls]

/-- A store whose indexed node 5 lacks the required `name` property. -/
def storeC9bad : Store :=
  ⟨[⟨5, [("age", PyVal.int 30)]⟩], [], [⟨"Person", "age", PyVal.int 30, 5⟩], 6, true, [], 0⟩

/-- A store whose indexed node 5 carries full `Person` data. -/
def storeC9ok : Store :=
  ⟨[⟨5, [("name", PyVal.str "bob"), ("age", PyVal.int 30)]⟩], [],
   [⟨"Person", "age", PyVal.int 30, 5⟩], 6, true, [], 0⟩

/-- `Person` as a type whose only property is the unique `name`. -/
def clsU : NodeClass := ⟨"Person", [("name", ClassAttr.prop pUniq)], Option.none⟩

/-- Mro of the unique-`name` `Person`. -/
def mroU : List NodeClass := [clsU, snCls]

/-- A store already holding node 0 indexed under `name = alice`. -/
def storeU : Store :=
  ⟨[⟨0, [("name", PyVal.str "alice")]⟩], [], [⟨"Person", "name", PyVal.str "alice", 0⟩],
   1, true, [], 0⟩

/-- Process state over `storeU` with a cold category cache. -/
def gU : Globals := ⟨storeU, []⟩

/-- A transient instance whose `name` collides with node 0. -/
def instU : Instance := ⟨[("name", PyVal.str "alice")], Option.none⟩

/-- A persisted instance bound to node 0. -/
def instP : Instance := ⟨[("name", PyVal.str "carol")], Option.some 0⟩

/-- The globals after the category lookup inside `_create`. -/
def afterCat (g : Globals) (mro : List NodeClass) : Globals :=
  (category_factory g (clsNameOf mro)).2

/-- The store right after `client.create` inside `_create`. -/
def createdStore (g : Globals) (mro : List NodeClass) (props : List (String × PyVal)) : Store :=
  (clientCreate (afterCat g mro).store props
    (category_factory g (clsNameOf mro)).1.nodeId (clsNameOf mro).toUpper).1

/-- The handle `client.create` returns inside `_create`. -/
def createdId (g : Globals) (mro : List NodeClass) (props : List (String × PyVal)) : Nat :=
  (clientCreate (afterCat g mro).store props
    (category_factory g (clsNameOf mro)).1.nodeId (clsNameOf mro).toUpper).2


theorem lookupD_nil (k : String) : lookupD [] k = Option.none := rfl

theorem lookupD_cons (x : String × PyVal) (l : List (String × PyVal)) (k : String) :
    lookupD (x :: l) k = if x.1 = k then Option.some x.2 else lookupD l k := by
  by_cases h : x.1 = k <;> simp [lookupD, List.find?_cons, h]

theorem lookupD_any (d : List (String × PyVal)) (k : String) :
    d.any (fun kv => decide (kv.1 = k)) = (lookupD d k).isSome := by
  induction d with
  | nil => rfl
  | cons a d ih =>
      rw [List.any_cons, lookupD_cons]
      by_cases hak : a.1 = k <;> simp [hak, ih]

theorem lookupD_mapUpd_self (d : List (String × PyVal)) (k : String) (v : PyVal)
    (h : (lookupD d k).isSome = true) :
    lookupD (d.map (fun kv => if kv.1 = k then (k, v) else kv)) k = Option.some v := by
  induction d with
  | nil => simp [lookupD_nil] at h
  | cons a d ih =>
      rw [lookupD_cons] at h
      by_cases hak : a.1 = k
      · simp [hak, lookupD_cons]
      · rw [if_neg hak] at h
        simpa [hak, lookupD_cons] using ih h

theorem lookupD_mapUpd_other (d : List (String × PyVal)) (k : String) (v : PyVal)
    (k' : String) (h : k' ≠ k) :
    lookupD (d.map (fun kv => if kv.1 = k then (k, v) else kv)) k' = lookupD d k' := by
  induction d with
  | nil => rfl
  | cons a d ih =>
      by_cases hak : a.1 = k
      · have hkk : ¬ (k = k') := fun hkk => h hkk.symm
        simp [hak, lookupD_cons, hkk, ih]
      · simp [hak, lookupD_cons, ih]

theorem lookupD_append_single_self (d : List (String × PyVal)) (k : String) (v : PyVal)
    (h : (lookupD d k).isSome = false) :
    lookupD (d ++ [(k, v)]) k = Option.some v := by
  induction d with
  | nil => simp [lookupD_cons]
  | cons a d ih =>
      rw [lookupD_cons] at h
      by_cases hak : a.1 = k
      · rw [if_pos hak] at h; simp at h
      · rw [if_neg hak] at h
        simp [lookupD_cons, hak, ih h]

theorem lookupD_append_single_other (d : List (String × PyVal)) (k : String) (v : PyVal)
    (k' : String) (h : k' ≠ k) :
    lookupD (d ++ [(k, v)]) k' = lookupD d k' := by
  induction d with
  | nil =>
      have hkk : ¬ (k = k') := fun hkk => h hkk.symm
      simp [lookupD_cons, hkk, lookupD_nil]
  | cons a d ih => simp [lookupD_cons, ih]

theorem lookupD_setD_self (d : List (String × PyVal)) (k : String) (v : PyVal) :
    lookupD (setD d k v) k = Option.some v := by
  by_cases hs : (lookupD d k).isSome = true
  · rw [setD, lookupD_any, if_pos hs]
    exact lookupD_mapUpd_self d k v hs
  · simp only [Bool.not_eq_true] at hs
    rw [setD, lookupD_any, hs]
    simp only [Bool.false_eq_true, if_false]
    exact lookupD_append_single_self d k v hs

theorem lookupD_setD_other (d : List (String × PyVal)) (k : String) (v : PyVal)
    (k' : String) (h : k' ≠ k) :
    lookupD (setD d k v) k' = lookupD d k' := by
  by_cases hs : (lookupD d k).isSome = true
  · rw [setD, lookupD_any, if_pos hs]
    exact lookupD_mapUpd_other d k v k' h
  · simp only [Bool.not_eq_true] at hs
    rw [setD, lookupD_any, hs]
    simp only [Bool.false_eq_true, if_false]
    exact lookupD_append_single_other d k v k' h

theorem lookupD_some_mem (d : List (String × PyVal)) (k : String) (v : PyVal)
    (h : lookupD d k = Option.some v) : (k, v) ∈ d := by
  induction d with
  | nil => simp [lookupD_nil] at h
  | cons a d ih =>
      rw [lookupD_cons] at h
      by_cases hak : a.1 = k
      · rw [if_pos hak] at h
        have h2 := Option.some.inj h
        have ha : a = (k, v) := by
          cases a
          simp at hak h2
          simp [hak, h2]
        rw [List.mem_cons]
        exact Or.inl ha.symm
      · rw [if_neg hak] at h
        exact List.mem_cons_of_mem _ (ih h)

theorem setattrI_ok (mro : List NodeClass) (i : Instance) (k : String) (v : PyVal)
    (i' : Instance) (h : setattrI mro i k v = Except.ok i') :
    i' = { i with dict := setD i.dict k v } := by
  unfold setattrI at h
  repeat' split at h
  all_goals first
    | exact (Except.ok.inj h).symm
    | simp at h

theorem kwargsFold_ok (mro : List NodeClass) :
    ∀ (kwargs : List (String × PyVal)) (i i' : Instance),
    kwargs.foldlM (fun inst kv => setattrI mro inst kv.1 kv.2) i = Except.ok i' →
      (∀ k, (lookupD i.dict k).isSome = true → (lookupD i'.dict k).isSome = true)
      ∧ (∀ k, k ∉ kwargs.map Prod.fst → lookupD i'.dict k = lookupD i.dict k)
      ∧ (∀ k v, (k, v) ∈ kwargs → (lookupD i'.dict k).isSome = true)
      ∧ i'.node = i.node := by
  intro kwargs
  induction kwargs with
  | nil =>
      intro i i' h
      rw [List.foldlM_nil] at h
      obtain rfl : i = i' := Except.ok.inj h
      exact ⟨fun k hk => hk, fun k _ => rfl, fun k v hv => by simp at hv, rfl⟩
  | cons kv kwargs ih =>
      intro i i' h
      rw [List.foldlM_cons] at h
      cases hs : setattrI mro i kv.1 kv.2 with
      | error e =>
          rw [hs] at h
          exact Except.noConfusion h
      | ok i1 =>
          rw [hs] at h
          have h2 : kwargs.foldlM (fun inst kv => setattrI mro inst kv.1 kv.2) i1
              = Except.ok i' := h
          have hi1 := setattrI_ok mro i kv.1 kv.2 i1 hs
          obtain ⟨ihSome, ihOther, ihMem, ihNode⟩ := ih i1 i' h2
          refine ⟨?_, ?_, ?_, ?_⟩
          · intro k hk
            apply ihSome
            by_cases hkk : k = kv.1
            · subst hkk; rw [hi1]; simp [lookupD_setD_self]
            · rw [hi1]; simpa [lookupD_setD_other _ _ _ _ hkk] using hk
          · intro k hk
            simp only [List.map_cons, List.mem_cons] at hk
            push_neg at hk
            rw [ihOther k hk.2, hi1]
            exact lookupD_setD_other _ _ _ _ hk.1
          · intro k v hv
            rcases List.mem_cons.mp hv with hv | hv
            · apply ihSome
              subst hv
              rw [hi1]
              simp [lookupD_setD_self]
            · exact ihMem k v hv
          · rw [ihNode, hi1]

theorem kwargsFold_value (mro : List NodeClass) :
    ∀ (kwargs : List (String × PyVal)) (i i' : Instance),
    (kwargs.map Prod.fst).Nodup →
    kwargs.foldlM (fun inst kv => setattrI mro inst kv.1 kv.2) i = Except.ok i' →
    ∀ k v, (k, v) ∈ kwargs → lookupD i'.dict k = Option.some v := by
  intro kwargs
  induction kwargs with
  | nil =>
      intro i i' _ _ k v hv
      simp at hv
  | cons kv kwargs ih =>
      intro i i' hnd h k v hv
      rw [List.foldlM_cons] at h
      cases hs : setattrI mro i kv.1 kv.2 with
      | error e => rw [hs] at h; exact Except.noConfusion h
      | ok i1 =>
          rw [hs] at h
          have h2 : kwargs.foldlM (fun inst kv => setattrI mro inst kv.1 kv.2) i1
              = Except.ok i' := h
          have hi1 := setattrI_ok mro i kv.1 kv.2 i1 hs
          simp only [List.map_cons, List.nodup_cons] at hnd
          rcases List.mem_cons.mp hv with hv | hv
          · subst hv
            have hout : (k, v).1 ∉ kwargs.map Prod.fst := hnd.1
            have hother := (kwargsFold_ok mro kwargs i1 i' h2).2.1 (k, v).1 hout
            rw [hother, hi1]
            exact lookupD_setD_self _ _ _
          · exact ih i1 i' hnd.2 h2 k v hv

theorem fillDefaults_cons_us (k : String) (a : ClassAttr)
    (more : List (String × ClassAttr)) (i : Instance) (h : startsUnderscore k = true) :
    fillDefaults ((k, a) :: more) i = fillDefaults more i := by
  simp [fillDefaults, h]

theorem fillDefaults_cons_plain (k : String) (v : PyVal)
    (more : List (String × ClassAttr)) (i : Instance) (h : startsUnderscore k = false) :
    fillDefaults ((k, ClassAttr.plain v) :: more) i = fillDefaults more i := by
  simp [fillDefaults, h]

theorem fillDefaults_cons_prop (k : String) (p : Property)
    (more : List (String × ClassAttr)) (i : Instance) (h : startsUnderscore k = false) :
    fillDefaults ((k, ClassAttr.prop p) :: more) i =
      if (lookupD i.dict k).isSome = true then fillDefaults more i
      else if p.required = true then Except.error (Err.requiredProperty k)
      else fillDefaults more { i with dict := setD i.dict k PyVal.none } := by
  simp [fillDefaults, h]

theorem fillDefaults_preserve :
    ∀ (entries : List (String × ClassAttr)) (i i' : Instance),
    fillDefaults entries i = Except.ok i' →
    ∀ k, (lookupD i.dict k).isSome = true → lookupD i'.dict k = lookupD i.dict k := by
  intro entries
  induction entries with
  | nil =>
      intro i i' h k _
      obtain rfl : i = i' := Except.ok.inj h
      rfl
  | cons a entries ih =>
      obtain ⟨ka, aa⟩ := a
      intro i i' h k hk
      by_cases hus : startsUnderscore ka = true
      · rw [fillDefaults_cons_us ka aa entries i hus] at h
        exact ih i i' h k hk
      · replace hus : startsUnderscore ka = false := by simpa using hus
        cases aa with
        | plain w =>
            rw [fillDefaults_cons_plain ka w entries i hus] at h
            exact ih i i' h k hk
        | prop p =>
            rw [fillDefaults_cons_prop ka p entries i hus] at h
            by_cases hsome : (lookupD i.dict ka).isSome = true
            · rw [if_pos hsome] at h
              exact ih i i' h k hk
            · rw [if_neg hsome] at h
              by_cases hreq : p.required = true
              · rw [if_pos hreq] at h
                exact Except.noConfusion h
              · rw [if_neg hreq] at h
                have hka : k ≠ ka := by
                  intro hkk
                  rw [hkk] at hk
                  exact hsome hk
                have hstep := ih _ i' h k
                  (by simpa [lookupD_setD_other _ _ _ _ hka] using hk)
                rw [hstep]
                simpa using lookupD_setD_other i.dict ka PyVal.none k hka

theorem fillDefaults_ok :
    ∀ (entries : List (String × ClassAttr)), (entries.map Prod.fst).Nodup →
    ∀ (i i' : Instance), fillDefaults entries i = Except.ok i' →
    ∀ k p, (k, ClassAttr.prop p) ∈ entries → startsUnderscore k = false →
      lookupD i.dict k = Option.none →
      p.required = false ∧ lookupD i'.dict k = Option.some PyVal.none := by
  intro entries
  induction entries with
  | nil =>
      intro _ i i' _ k p hmem
      simp at hmem
  | cons a entries ih =>
      obtain ⟨ka, aa⟩ := a
      intro hnd i i' h k p hmem hus hnone
      simp only [List.map_cons, List.nodup_cons] at hnd
      rcases List.mem_cons.mp hmem with hma | hma
      · injection hma with hk1 hk2
        subst hk1
        subst hk2
        rw [fillDefaults_cons_prop k p entries i hus] at h
        have hsome : ¬ (lookupD i.dict k).isSome = true := by
          rw [hnone]; simp
        rw [if_neg hsome] at h
        by_cases hreq : p.required = true
        · rw [if_pos hreq] at h
          exact Except.noConfusion h
        · rw [if_neg hreq] at h
          refine ⟨by simpa using hreq, ?_⟩
          have hset : lookupD (setD i.dict k PyVal.none) k = Option.some PyVal.none :=
            lookupD_setD_self _ _ _
          have := fillDefaults_preserve entries _ i' h k (by rw [hset]; rfl)
          rw [this, hset]
      · have hka : k ≠ ka := by
          intro hkk
          apply hnd.1
          rw [← hkk]
          exact List.mem_map_of_mem Prod.fst hma
        by_cases hus2 : startsUnderscore ka = true
        · rw [fillDefaults_cons_us ka aa entries i hus2] at h
          exact ih hnd.2 i i' h k p hma hus hnone
        · replace hus2 : startsUnderscore ka = false := by simpa using hus2
          cases aa with
          | plain w =>
              rw [fillDefaults_cons_plain ka w entries i hus2] at h
              exact ih hnd.2 i i' h k p hma hus hnone
          | prop q =>
              rw [fillDefaults_cons_prop ka q entries i hus2] at h
              by_cases hsome : (lookupD i.dict ka).isSome = true
              · rw [if_pos hsome] at h
                exact ih hnd.2 i i' h k p hma hus hnone
              · rw [if_neg hsome] at h
                by_cases hreq : q.required = true
                · rw [if_pos hreq] at h
                  exact Except.noConfusion h
                · rw [if_neg hreq] at h
                  refine ih hnd.2 _ i' h k p hma hus ?_
                  rw [lookupD_setD_other _ _ _ _ hka]
                  exact hnone

theorem fillDefaults_missing :
    ∀ (entries : List (String × ClassAttr)), (entries.map Prod.fst).Nodup →
    ∀ (i : Instance),
    (∃ k p, (k, ClassAttr.prop p) ∈ entries ∧ startsUnderscore k = false ∧
      p.required = true ∧ lookupD i.dict k = Option.none) →
    ∃ k' p', fillDefaults entries i = Except.error (Err.requiredProperty k')
      ∧ (k', ClassAttr.prop p') ∈ entries ∧ startsUnderscore k' = false
      ∧ p'.required = true ∧ lookupD i.dict k' = Option.none := by
  intro entries
  induction entries with
  | nil =>
      intro _ i hex
      obtain ⟨k, p, hmem, _⟩ := hex
      simp at hmem
  | cons a entries ih =>
      obtain ⟨ka, aa⟩ := a
      intro hnd i hex
      obtain ⟨k, p, hmem, hus, hreq, hnone⟩ := hex
      simp only [List.map_cons, List.nodup_cons] at hnd
      rcases List.mem_cons.mp hmem with hma | hma
      · injection hma with hk1 hk2
        subst hk1
        subst hk2
        rw [fillDefaults_cons_prop k p entries i hus]
        have hsome : ¬ (lookupD i.dict k).isSome = true := by
          rw [hnone]; simp
        rw [if_neg hsome, if_pos hreq]
        exact ⟨k, p, rfl, hmem, hus, hreq, hnone⟩
      · have hka : k ≠ ka := by
          intro hkk
          apply hnd.1
          rw [← hkk]
          exact List.mem_map_of_mem Prod.fst hma
        by_cases hus2 : startsUnderscore ka = true
        · rw [fillDefaults_cons_us ka aa entries i hus2]
          obtain ⟨k', p', heq, hm, h1, h2, h3⟩ :=
            ih hnd.2 i ⟨k, p, hma, hus, hreq, hnone⟩
          exact ⟨k', p', heq, List.mem_cons_of_mem _ hm, h1, h2, h3⟩
        · replace hus2 : startsUnderscore ka = false := by simpa using hus2
          cases aa with
          | plain w =>
              rw [fillDefaults_cons_plain ka w entries i hus2]
              obtain ⟨k', p', heq, hm, h1, h2, h3⟩ :=
                ih hnd.2 i ⟨k, p, hma, hus, hreq, hnone⟩
              exact ⟨k', p', heq, List.mem_cons_of_mem _ hm, h1, h2, h3⟩
          | prop q =>
              rw [fillDefaults_cons_prop ka q entries i hus2]
              by_cases hsome : (lookupD i.dict ka).isSome = true
              · rw [if_pos hsome]
                obtain ⟨k', p', heq, hm, h1, h2, h3⟩ :=
                  ih hnd.2 i ⟨k, p, hma, hus, hreq, hnone⟩
                exact ⟨k', p', heq, List.mem_cons_of_mem _ hm, h1, h2, h3⟩
              · rw [if_neg hsome]
                by_cases hreq2 : q.required = true
                · rw [if_pos hreq2]
                  have hkanone : lookupD i.dict ka = Option.none :=
                    Option.not_isSome_iff_eq_none.mp (by simpa using hsome)
                  exact ⟨ka, q, rfl, List.mem_cons_self _ _, hus2, hreq2, hkanone⟩
                · rw [if_neg hreq2]
                  have hnone2 : lookupD (setD i.dict ka PyVal.none) k = Option.none := by
                    rw [lookupD_setD_other _ _ _ _ hka]
                    exact hnone
                  obtain ⟨k', p', heq, hm, h1, h2, h3⟩ :=
                    ih hnd.2 { i with dict := setD i.dict ka PyVal.none }
                      ⟨k, p, hma, hus, hreq, hnone2⟩
                  have hk'a : k' ≠ ka := by
                    intro hkk
                    rw [hkk, lookupD_setD_self] at h3
                    exact Option.noConfusion h3
                  refine ⟨k', p', heq, List.mem_cons_of_mem _ hm, h1, h2, ?_⟩
                  rw [lookupD_setD_other _ _ _ _ hk'a] at h3
                  exact h3

theorem submitOps_frame :
    ∀ (ops : List BatchOp) (s s' : Store) (rs : List BatchResult),
    submitOps s ops = Except.ok (s', rs) →
      s'.nodes = s.nodes ∧ s'.rels = s.rels ∧ s'.nextId = s.nextId
      ∧ (∀ e, e ∈ s.entries → e ∈ s'.entries)
      ∧ (∀ e, e ∈ s'.entries → e ∈ s.entries ∨ ∃ op, op ∈ ops ∧ e = opEntry op) := by
  intro ops
  induction ops with
  | nil =>
      intro s s' rs h
      rw [submitOps] at h
      obtain ⟨h1, _⟩ := Prod.mk.injEq .. ▸ Except.ok.inj h
      subst h1
      exact ⟨rfl, rfl, rfl, fun e he => he, fun e he => Or.inl he⟩
  | cons op more ih =>
      intro s s' rs h
      cases op with
      | addOrFail idx key v nid =>
          rw [submitOps] at h
          by_cases hc : hasEntry s idx key v = true
          · rw [if_pos hc] at h
            exact Except.noConfusion h
          · rw [if_neg hc] at h
            cases hrec : submitOps (addEntry s idx key v nid) more with
            | error u => rw [hrec] at h; exact Except.noConfusion h
            | ok pr =>
                rw [hrec] at h
                obtain ⟨s1, rs1⟩ := pr
                have h2 := Except.ok.inj h
                obtain ⟨hs1, _⟩ := Prod.mk.injEq .. ▸ h2
                subst hs1
                obtain ⟨e1, e2, e3, e4, e5⟩ := ih (addEntry s idx key v nid) s1 rs1 hrec
                refine ⟨e1, e2, e3, ?_, ?_⟩
                · intro e he
                  exact e4 e (by simp [addEntry, he])
                · intro e he
                  rcases e5 e he with he2 | ⟨op2, hop2, hee⟩
                  · simp only [addEntry, List.mem_append, List.mem_singleton] at he2
                    rcases he2 with he2 | he2
                    · exact Or.inl he2
                    · exact Or.inr ⟨BatchOp.addOrFail idx key v nid, List.mem_cons_self _ _,
                        by rw [he2]; rfl⟩
                  · exact Or.inr ⟨op2, List.mem_cons_of_mem _ hop2, hee⟩
      | getOrAdd idx key v nid =>
          rw [submitOps] at h
          by_cases hc : hasEntry s idx key v = true
          · rw [if_pos hc] at h
            cases hrec : submitOps s more with
            | error u => rw [hrec] at h; exact Except.noConfusion h
            | ok pr =>
                rw [hrec] at h
                obtain ⟨s1, rs1⟩ := pr
                have h2 := Except.ok.inj h
                obtain ⟨hs1, _⟩ := Prod.mk.injEq .. ▸ h2
                subst hs1
                obtain ⟨e1, e2, e3, e4, e5⟩ := ih s s1 rs1 hrec
                refine ⟨e1, e2, e3, e4, ?_⟩
                intro e he
                rcases e5 e he with he2 | ⟨op2, hop2, hee⟩
                · exact Or.inl he2
                · exact Or.inr ⟨op2, List.mem_cons_of_mem _ hop2, hee⟩
          · rw [if_neg hc] at h
            cases hrec : submitOps (addEntry s idx key v nid) more with
            | error u => rw [hrec] at h; exact Except.noConfusion h
            | ok pr =>
                rw [hrec] at h
                obtain ⟨s1, rs1⟩ := pr
                have h2 := Except.ok.inj h
                obtain ⟨hs1, _⟩ := Prod.mk.injEq .. ▸ h2
                subst hs1
                obtain ⟨e1, e2, e3, e4, e5⟩ := ih (addEntry s idx key v nid) s1 rs1 hrec
                refine ⟨e1, e2, e3, ?_, ?_⟩
                · intro e he
                  exact e4 e (by simp [addEntry, he])
                · intro e he
                  rcases e5 e he with he2 | ⟨op2, hop2, hee⟩
                  · simp only [addEntry, List.mem_append, List.mem_singleton] at he2
                    rcases he2 with he2 | he2
                    · exact Or.inl he2
                    · exact Or.inr ⟨BatchOp.getOrAdd idx key v nid, List.mem_cons_self _ _,
                        by rw [he2]; rfl⟩
                  · exact Or.inr ⟨op2, List.mem_cons_of_mem _ hop2, hee⟩
      | add idx key v nid =>
          rw [submitOps] at h
          cases hrec : submitOps (addEntry s idx key v nid) more with
          | error u => rw [hrec] at h; exact Except.noConfusion h
          | ok pr =>
              rw [hrec] at h
              obtain ⟨s1, rs1⟩ := pr
              have h2 := Except.ok.inj h
              obtain ⟨hs1, _⟩ := Prod.mk.injEq .. ▸ h2
              subst hs1
              obtain ⟨e1, e2, e3, e4, e5⟩ := ih (addEntry s idx key v nid) s1 rs1 hrec
              refine ⟨e1, e2, e3, ?_, ?_⟩
              · intro e he
                exact e4 e (by simp [addEntry, he])
              · intro e he
                rcases e5 e he with he2 | ⟨op2, hop2, hee⟩
                · simp only [addEntry, List.mem_append, List.mem_singleton] at he2
                  rcases he2 with he2 | he2
                  · exact Or.inl he2
                  · exact Or.inr ⟨BatchOp.add idx key v nid, List.mem_cons_self _ _,
                      by rw [he2]; rfl⟩
                · exact Or.inr ⟨op2, List.mem_cons_of_mem _ hop2, hee⟩

theorem buildOp_some (s : Store) (cls : NodeClass) (k : String) (v : PyVal) (nid : Nat)
    (op : BatchOp) (h : buildOp s cls k v nid = Except.ok (Option.some op)) :
    opEntry op = ⟨cls.indexName, k, v, nid⟩ := by
  unfold buildOp at h
  repeat' split at h
  all_goals first
    | (obtain rfl : _ = op := Option.some.inj (Except.ok.inj h)
       rfl)
    | exact Except.noConfusion h
    | exact Option.noConfusion (Except.ok.inj h)

theorem buildBatch_mem (s : Store) (cls : NodeClass) (nid : Nat) :
    ∀ (props : List (String × PyVal)) (acc ops : List BatchOp),
    props.foldlM
      (fun acc kv => do
        let o ← buildOp s cls kv.1 kv.2 nid
        Except.ok (acc ++ o.toList)) acc = Except.ok ops →
    ∀ op, op ∈ ops → op ∈ acc
      ∨ ((opEntry op).nodeId = nid ∧ ((opEntry op).key, (opEntry op).val) ∈ props) := by
  intro props
  induction props with
  | nil =>
      intro acc ops h op hop
      rw [List.foldlM_nil] at h
      obtain rfl : acc = ops := Except.ok.inj h
      exact Or.inl hop
  | cons kv props ih =>
      intro acc ops h op hop
      rw [List.foldlM_cons] at h
      cases hb : buildOp s cls kv.1 kv.2 nid with
      | error e => rw [hb] at h; exact Except.noConfusion h
      | ok o =>
          rw [hb] at h
          have h2 : props.foldlM
              (fun acc kv => do
                let o ← buildOp s cls kv.1 kv.2 nid
                Except.ok (acc ++ o.toList)) (acc ++ o.toList) = Except.ok ops := h
          rcases ih (acc ++ o.toList) ops h2 op hop with hin | hprops
          · rcases List.mem_append.mp hin with hin | hin
            · exact Or.inl hin
            · cases o with
              | none => simp at hin
              | some op2 =>
                  simp only [Option.toList, List.mem_singleton] at hin
                  subst hin
                  have he := buildOp_some s cls kv.1 kv.2 nid op hb
                  refine Or.inr ⟨by rw [he], ?_⟩
                  rw [he]
                  exact List.mem_cons_self _ _
          · exact Or.inr ⟨hprops.1, List.mem_cons_of_mem _ hprops.2⟩

theorem updateClass_frame (s : Store) (cls : NodeClass) (props : List (String × PyVal))
    (nid : Nat) (s' : Store) (r : Option Err) (h : updateClass s cls props nid = (s', r)) :
    s'.nodes = s.nodes ∧ s'.rels = s.rels ∧ s'.nextId = s.nextId
    ∧ (∀ e, e ∈ s.entries → e ∈ s'.entries)
    ∧ (∀ e, e ∈ s'.entries → e ∈ s.entries
        ∨ (e.nodeId = nid ∧ (e.key, e.val) ∈ props)) := by
  unfold updateClass at h
  split at h
  · obtain ⟨h1, _⟩ := Prod.mk.injEq .. ▸ h
    subst h1
    exact ⟨rfl, rfl, rfl, fun e he => he, fun e he => Or.inl he⟩
  next ops heq =>
    split at h
    · obtain ⟨h1, _⟩ := Prod.mk.injEq .. ▸ h
      subst h1
      exact ⟨rfl, rfl, rfl, fun e he => he, fun e he => Or.inl he⟩
    next s1 rs1 heq2 =>
      obtain ⟨f1, f2, f3, f4, f5⟩ := submitOps_frame ops s s1 rs1 heq2
      have hkeys : ∀ e, e ∈ s1.entries → e ∈ s.entries
          ∨ (e.nodeId = nid ∧ (e.key, e.val) ∈ props) := by
        intro e he
        rcases f5 e he with he2 | ⟨op2, hop2, hee⟩
        · exact Or.inl he2
        · have hmem := buildBatch_mem s cls nid props [] ops heq op2 hop2
          rcases hmem with hin | ⟨hn, hk⟩
          · simp at hin
          · exact Or.inr ⟨by rw [hee]; exact hn, by rw [hee]; exact hk⟩
      split at h
      · obtain ⟨h1, _⟩ := Prod.mk.injEq .. ▸ h
        subst h1
        exact ⟨f1, f2, f3, f4, hkeys⟩
      · obtain ⟨h1, _⟩ := Prod.mk.injEq .. ▸ h
        subst h1
        exact ⟨f1, f2, f3, f4, hkeys⟩

theorem update_index_frame :
    ∀ (mro : List NodeClass) (s : Store) (props : List (String × PyVal)) (nid : Nat)
      (s' : Store) (r : Option Err), _update_index s mro props nid = (s', r) →
    s'.nodes = s.nodes ∧ s'.rels = s.rels ∧ s'.nextId = s.nextId
    ∧ (∀ e, e ∈ s.entries → e ∈ s'.entries)
    ∧ (∀ e, e ∈ s'.entries → e ∈ s.entries
        ∨ (e.nodeId = nid ∧ (e.key, e.val) ∈ props)) := by
  intro mro
  induction mro with
  | nil =>
      intro s props nid s' r h
      rw [_update_index] at h
      obtain ⟨h1, _⟩ := Prod.mk.injEq .. ▸ h
      subst h1
      exact ⟨rfl, rfl, rfl, fun e he => he, fun e he => Or.inl he⟩
  | cons cls more ih =>
      intro s props nid s' r h
      rw [_update_index] at h
      split at h
      · obtain ⟨h1, _⟩ := Prod.mk.injEq .. ▸ h
        subst h1
        exact ⟨rfl, rfl, rfl, fun e he => he, fun e he => Or.inl he⟩
      · split at h
        next s1 e heq =>
            obtain ⟨f1, f2, f3, f4, f5⟩ := updateClass_frame s cls props nid s1 (Option.some e) heq
            obtain ⟨h1, _⟩ := Prod.mk.injEq .. ▸ h
            subst h1
            exact ⟨f1, f2, f3, f4, f5⟩
        next s1 heq =>
            obtain ⟨f1, f2, f3, f4, f5⟩ := updateClass_frame s cls props nid s1 Option.none heq
            obtain ⟨g1, g2, g3, g4, g5⟩ := ih s1 props nid s' r h
            refine ⟨g1.trans f1, g2.trans f2, g3.trans f3,
              fun e he => g4 e (f4 e he), ?_⟩
            intro e he
            rcases g5 e he with he2 | hp
            · exact f5 e he2
            · exact Or.inr hp

theorem update_index_eq_active :
    ∀ (mro : List NodeClass) (s : Store) (props : List (String × PyVal)) (nid : Nat),
    _update_index s mro props nid = updateClasses s (activeAncestors mro) props nid := by
  intro mro
  induction mro with
  | nil => intro s props nid; rfl
  | cons cls more ih =>
      intro s props nid
      rw [_update_index]
      by_cases hroot : cls.name = "StructuredNode" ∨ cls.name = "ReadOnlyNode"
      · rw [if_pos hroot]
        have hact : activeAncestors (cls :: more) = [] := by
          simp [activeAncestors, List.takeWhile, hroot]
        rw [hact, updateClasses]
      · rw [if_neg hroot]
        have hact : activeAncestors (cls :: more) = cls :: activeAncestors more := by
          simp [activeAncestors, List.takeWhile, hroot]
        rw [hact, updateClasses]
        cases huc : updateClass s cls props nid with
        | mk s1 r1 =>
            cases r1 with
            | some e => rfl
            | none => exact ih s1 props nid

theorem scanResults_isSome :
    ∀ (rs : List BatchResult),
    (scanResults rs).isSome = rs.any (fun r => decide (r.status = 200)) := by
  intro rs
  induction rs with
  | nil => rfl
  | cons r rs ih =>
      rw [scanResults, List.any_cons]
      by_cases h200 : r.status = 200
      · simp [h200]
      · rw [if_neg h200, ih]
        simp [h200]

theorem storeWF_category (s : Store) (name : String) (h : StoreWF s = true) :
    StoreWF (storeCategoryGetOrCreate s name).1 = true := by
  unfold storeCategoryGetOrCreate
  split
  · exact h
  · simp only [StoreWF, List.all_append, Bool.and_eq_true] at h ⊢
    constructor
    · refine List.all_eq_true.mpr ?_
      intro n hn
      have := List.all_eq_true.mp h n hn
      simp only [decide_eq_true_eq] at this ⊢
      omega
    · simp

theorem wf_category_factory (g : Globals) (name : String) (h : StoreWF g.store = true) :
    StoreWF (category_factory g name).2.store = true := by
  unfold category_factory
  split
  · exact h
  · exact storeWF_category g.store name h

theorem find?_append_none {α : Type} (l1 l2 : List α) (p : α → Bool)
    (h : l1.find? p = Option.none) : (l1 ++ l2).find? p = l2.find? p := by
  induction l1 with
  | nil => rfl
  | cons a l1 ih =>
      rw [List.find?_cons] at h
      cases hpa : p a with
      | true => rw [hpa] at h; exact Option.noConfusion h
      | false =>
          rw [hpa] at h
          rw [List.cons_append, List.find?_cons, hpa]
          exact ih h

theorem storeCategory_remoteCalls (s : Store) (name : String) :
    (storeCategoryGetOrCreate s name).1.remoteCalls = s.remoteCalls + 1 := by
  unfold storeCategoryGetOrCreate
  split <;> rfl

theorem storeCategory_nodes_of_present (s : Store) (name : String)
    (h : (s.categoryIdx.find? (fun kv => decide (kv.1 = name))).isSome = true) :
    (storeCategoryGetOrCreate s name).1.nodes = s.nodes := by
  unfold storeCategoryGetOrCreate
  split
  · rfl
  · next heq => rw [heq] at h; simp at h

/-- C4: the spec says a criterion name resolving to a non-`Property`
attribute fails with `NoSuchProperty`; the code instead raises
`AttributeError` when it touches `is_indexed` on the returned
non-`Property` value, because `get_property` (core.py:112) constructs
`NoSuchProperty(...)` without a `raise` statement.  Evaluated on a class
with a truthy non-`Property` class attribute `flag`. -/
theorem C4_search_nonproperty_raises_attributeError :
    search emptyStore mroFlag [("flag", PyVal.int 1)]
      = Except.error (Err.attributeError "flag")
    ∧ get_property mroFlag "flag" = Except.ok (ClassAttr.plain (PyVal.int 1)) := by
  exact ⟨rfl, rfl⟩

/-- C5 counterexample: `name` is a declared property of `Student`
(inherited from `Person`, resolvable via `get_property`) and is required,
yet constructing `Student()` with no keywords succeeds and leaves `name`
unset — neither defaulted to the null marker nor rejected with
`RequiredProperty` — because `__init__` only walks the concrete class's
own `__dict__`. -/
theorem C5_counterexample_inherited_required_ignored :
    get_property mroChild "name" = Except.ok (ClassAttr.prop pReq)
    ∧ pReq.required = true
    ∧ initNode mroChild [] = Except.ok ⟨[], Option.none⟩ := by
  exact ⟨rfl, rfl, rfl⟩

/-- C6 counterexample: `scratch` is not a declared property of `Thing`
(`get_property` fails), yet after `Thing(scratch='x')` the `properties`
snapshot — the exact payload create/save writes — contains it, because
the filter in core.py:148-159 never checks that a key is declared. -/
theorem C6_counterexample_unrecognized_key_persisted :
    initNode mroThing [("scratch", PyVal.str "x")]
      = Except.ok ⟨[("scratch", PyVal.str "x")], Option.none⟩
    ∧ get_property mroThing "scratch" = Except.error (Err.noSuchProperty "scratch")
    ∧ propertiesOf ⟨[("scratch", PyVal.str "x")], Option.none⟩
      = [("scratch", PyVal.str "x")] := by
  exact ⟨rfl, rfl, rfl⟩

/-- C9 counterexample: the store-side node 5 matches the `age = 30`
search but lacks the required `name` property; the spec says
reconstruction bypasses construction validation, yet `search` raises
`RequiredProperty` because it rebuilds instances through the normal
constructor (core.py:60). -/
theorem C9_counterexample_search_validates :
    search storeC9bad mroPerson [("age", PyVal.int 30)]
      = Except.error (Err.requiredProperty "name") := by
  rfl

/-- C3: `get` delegates to `search` (propagating its errors unchanged) and
then returns the sole instance on exactly one match, raises the generic
multiplicity `Exception` on several matches, and raises the node class's
own `DoesNotExist` on zero matches — never silently picking one. -/
theorem C3_get_contract (s : Store) (mro : List NodeClass)
    (kwargs : List (String × PyVal)) :
    (∀ e, search s mro kwargs = Except.error e → NodeIndexManager.get s mro kwargs = Except.error e)
    ∧ (∀ ns, search s mro kwargs = Except.ok ns →
        (ns.length = 1 → ∃ x, ns = [x] ∧ NodeIndexManager.get s mro kwargs = Except.ok x)
        ∧ (1 < ns.length → NodeIndexManager.get s mro kwargs
            = Except.error (Err.multipleNodes "Multiple nodes returned from query, expected one"))
        ∧ (ns.length = 0 → NodeIndexManager.get s mro kwargs
            = Except.error (Err.doesNotExist (clsNameOf mro)
                "Cant find node in index matching query"))) := by
  constructor
  · intro e he
    simp [NodeIndexManager.get, he]
  · intro ns hs
    refine ⟨?_, ?_, ?_⟩
    · intro h1
      obtain ⟨x, rfl⟩ : ∃ x, ns = [x] := by
        cases ns with
        | nil => simp at h1
        | cons x t =>
            cases t with
            | nil => exact ⟨x, rfl⟩
            | cons y u => simp at h1
      exact ⟨x, rfl, by simp [NodeIndexManager.get, hs]⟩
    · intro hgt
      have hne : ¬ ns.length = 1 := by omega
      simp [NodeIndexManager.get, hs, hne, hgt]
    · intro h0
      have hne : ¬ ns.length = 1 := by omega
      have hnl : ¬ 1 < ns.length := by omega
      simp [NodeIndexManager.get, hs, hne, hnl]

theorem C3_get_contract_witness :
    NodeIndexManager.get storeC9ok mroPerson [("age", PyVal.int 31)]
      = Except.error (Err.doesNotExist "Person" "Cant find node in index matching query") := by
  have h := ((C3_get_contract storeC9ok mroPerson [("age", PyVal.int 31)]).2
    [] (by rfl)).2.2 (by rfl)
  exact h

/-- C8: `category_factory` is idempotent and memoized per type name — a
repeated call returns the identical cached object and leaves the process
state (store included) unchanged; the first call on a cache miss pays
exactly one remote get-or-create and appends the wrapper to the cache; a
cache hit answers from the cache with no state change; and the store
get-or-create creates no node when the `Category` index already holds the
name — so at most one category node per type name is ever created. -/
theorem C8_category_factory_memoized (g : Globals) (name : String) :
    category_factory (category_factory g name).2 name = category_factory g name
    ∧ (g.cache.find? (fun kv => decide (kv.1 = name)) = Option.none →
        (category_factory g name).2.store.remoteCalls = g.store.remoteCalls + 1
        ∧ (category_factory g name).2.cache
            = g.cache ++ [(name, (category_factory g name).1)])
    ∧ (∀ kv, g.cache.find? (fun kv => decide (kv.1 = name)) = Option.some kv →
        category_factory g name = (kv.2, g))
    ∧ ((g.store.categoryIdx.find? (fun kv => decide (kv.1 = name))).isSome = true →
        (category_factory g name).2.store.nodes = g.store.nodes) := by
  refine ⟨?_, ?_, ?_, ?_⟩
  · cases hf : g.cache.find? (fun kv => decide (kv.1 = name)) with
    | some kv =>
        have h1 : category_factory g name = (kv.2, g) := by
          unfold category_factory
          rw [hf]
        rw [h1]
        exact h1
    | none =>
        have h1 : category_factory g name =
            (⟨name, (storeCategoryGetOrCreate g.store name).2⟩,
             ⟨(storeCategoryGetOrCreate g.store name).1,
              g.cache ++ [(name, ⟨name, (storeCategoryGetOrCreate g.store name).2⟩)]⟩) := by
          unfold category_factory
          rw [hf]
        rw [h1]
        have h2 : ((g.cache ++
            [(name, (⟨name, (storeCategoryGetOrCreate g.store name).2⟩ : CategoryNode))]).find?
              (fun kv => decide (kv.1 = name)))
            = Option.some (name, ⟨name, (storeCategoryGetOrCreate g.store name).2⟩) := by
          rw [find?_append_none _ _ _ hf]
          simp
        unfold category_factory
        rw [h2]
  · intro hf
    have h1 : category_factory g name =
        (⟨name, (storeCategoryGetOrCreate g.store name).2⟩,
         ⟨(storeCategoryGetOrCreate g.store name).1,
          g.cache ++ [(name, ⟨name, (storeCategoryGetOrCreate g.store name).2⟩)]⟩) := by
      unfold category_factory
      rw [hf]
    rw [h1]
    exact ⟨storeCategory_remoteCalls g.store name, rfl⟩
  · intro kv hf
    unfold category_factory
    rw [hf]
  · intro hidx
    cases hf : g.cache.find? (fun kv => decide (kv.1 = name)) with
    | some kv =>
        have h1 : category_factory g name = (kv.2, g) := by
          unfold category_factory
          rw [hf]
        rw [h1]
    | none =>
        have h1 : category_factory g name =
            (⟨name, (storeCategoryGetOrCreate g.store name).2⟩,
             ⟨(storeCategoryGetOrCreate g.store name).1,
              g.cache ++ [(name, ⟨name, (storeCategoryGetOrCreate g.store name).2⟩)]⟩) := by
          unfold category_factory
          rw [hf]
        rw [h1]
        exact storeCategory_nodes_of_present g.store name hidx

theorem C8_category_factory_memoized_witness :
    (category_factory gU "Person").2.store.remoteCalls = gU.store.remoteCalls + 1
    ∧ category_factory (category_factory gU "Person").2 "Person"
        = category_factory gU "Person" := by
  refine ⟨((C8_category_factory_memoized gU "Person").2.1 (by rfl)).1, ?_⟩
  exact (C8_category_factory_memoized gU "Person").1


theorem save_some (g : Globals) (mro : List NodeClass) (d : List (String × PyVal))
    (nid : Nat) :
    save g mro ⟨d, Option.some nid⟩ =
      (match _update_index
          (indexRemoveEntity
            (storeSetProps g.store nid (propertiesOf ⟨d, Option.some nid⟩))
            (idxNameOf mro) nid)
          mro (propertiesOf ⟨d, Option.some nid⟩) nid with
       | (s3, Option.none) =>
          ({ g with store := s3 }, (⟨d, Option.some nid⟩ : Instance), Option.none)
       | (s3, Option.some e) =>
          ({ g with store := s3 }, (⟨d, Option.some nid⟩ : Instance), Option.some e)) := rfl

theorem save_none (g : Globals) (mro : List NodeClass) (d : List (String × PyVal)) :
    save g mro ⟨d, Option.none⟩
      = _create g mro ⟨d, Option.none⟩ (propertiesOf ⟨d, Option.none⟩) := rfl

theorem create_proj (g : Globals) (mro : List NodeClass) (inst : Instance)
    (props : List (String × PyVal)) :
    _create g mro inst props =
      (match _update_index (createdStore g mro props) mro props (createdId g mro props) with
       | (s3, Option.none) =>
          ({ afterCat g mro with store := s3 },
           { inst with node := Option.some (createdId g mro props) }, Option.none)
       | (s3, Option.some e) =>
          ({ afterCat g mro with store :=
              (deleteInst s3 { inst with node := Option.some (createdId g mro props) }).1 },
           { inst with node := Option.none }, Option.some e)) := rfl

theorem create_err_eq (g : Globals) (mro : List NodeClass) (inst : Instance)
    (props : List (String × PyVal)) (s3 : Store) (e : Err)
    (hup : _update_index (createdStore g mro props) mro props (createdId g mro props)
        = (s3, Option.some e)) :
    _create g mro inst props =
      ({ afterCat g mro with store :=
          (deleteInst s3 { inst with node := Option.some (createdId g mro props) }).1 },
       { inst with node := Option.none }, Option.some e) := by
  rw [create_proj, hup]

/-- C1: when the node write succeeds but the subsequent index update
raises, the just-created node is deleted from the store (the node list is
exactly what it was after the category lookup — no orphaned node
remains), the instance's handle is cleared, and the original indexing
error is re-raised to the caller. -/
theorem C1_create_rollback_on_index_error (g : Globals) (mro : List NodeClass)
    (inst : Instance) (props : List (String × PyVal)) (s3 : Store) (e : Err)
    (hwf : StoreWF g.store = true)
    (hup : _update_index (createdStore g mro props) mro props (createdId g mro props)
        = (s3, Option.some e)) :
    (_create g mro inst props).1.store.nodes = (afterCat g mro).store.nodes
    ∧ (_create g mro inst props).2.1.node = Option.none
    ∧ (_create g mro inst props).2.2 = Option.some e := by
  rw [create_err_eq g mro inst props s3 e hup]
  refine ⟨?_, rfl, rfl⟩
  have hwf1 : StoreWF (afterCat g mro).store = true :=
    wf_category_factory g (clsNameOf mro) hwf
  obtain ⟨f1, -, -, -, -⟩ := update_index_frame mro _ props _ s3 (Option.some e) hup
  show s3.nodes.filter (fun n => !(decide (n.id = createdId g mro props)))
      = (afterCat g mro).store.nodes
  have hnodes : s3.nodes
      = (afterCat g mro).store.nodes
        ++ [⟨(afterCat g mro).store.nextId, props⟩] := f1
  have hid : createdId g mro props = (afterCat g mro).store.nextId := rfl
  rw [hnodes, List.filter_append, hid]
  have h2 : List.filter (fun n => !(decide (n.id = (afterCat g mro).store.nextId)))
      ([⟨(afterCat g mro).store.nextId, props⟩] : List StoreNode) = [] := by
    simp
  rw [h2, List.append_nil]
  refine List.filter_eq_self.mpr ?_
  intro n hn
  have hlt := List.all_eq_true.mp hwf1 n hn
  simp only [decide_eq_true_eq] at hlt
  simp only [Bool.not_eq_true']
  simp only [decide_eq_false_iff_not]
  omega

theorem C1_create_rollback_on_index_error_witness :
    (_create gU mroU instU [("name", PyVal.str "alice")]).1.store.nodes
        = (afterCat gU mroU).store.nodes
    ∧ (_create gU mroU instU [("name", PyVal.str "alice")]).2.1.node = Option.none
    ∧ (_create gU mroU instU [("name", PyVal.str "alice")]).2.2
        = Option.some (Err.notUnique "A supplied value is not uniquePerson/name") := by
  have hup : _update_index (createdStore gU mroU [("name", PyVal.str "alice")]) mroU
      [("name", PyVal.str "alice")] (createdId gU mroU [("name", PyVal.str "alice")])
      = ((_update_index (createdStore gU mroU [("name", PyVal.str "alice")]) mroU
          [("name", PyVal.str "alice")] (createdId gU mroU [("name", PyVal.str "alice")])).1,
         Option.some (Err.notUnique "A supplied value is not uniquePerson/name")) := by
    rfl
  exact C1_create_rollback_on_index_error gU mroU instU [("name", PyVal.str "alice")]
    _ _ (by rfl) hup

/-- C10: the compensating rollback in `_create` is performed through the
instance's own `delete()` (the resulting store is exactly `deleteInst`
applied to the post-update store and the freshly bound instance), the
handle is cleared so the instance is transient again, the original error
propagates, and a subsequent `save()` on that instance re-enters the
create path rather than the update path. -/
theorem C10_rollback_via_delete_reenters_create (g : Globals) (mro : List NodeClass)
    (inst : Instance) (props : List (String × PyVal)) (s3 : Store) (e : Err)
    (hup : _update_index (createdStore g mro props) mro props (createdId g mro props)
        = (s3, Option.some e)) :
    (_create g mro inst props).1.store
        = (deleteInst s3 { inst with node := Option.some (createdId g mro props) }).1
    ∧ (_create g mro inst props).2.1 = { inst with node := Option.none }
    ∧ (_create g mro inst props).2.2 = Option.some e
    ∧ (∀ g' : Globals, save g' mro { inst with node := Option.none }
        = _create g' mro { inst with node := Option.none }
            (propertiesOf { inst with node := Option.none })) := by
  rw [create_err_eq g mro inst props s3 e hup]
  refine ⟨rfl, rfl, rfl, ?_⟩
  intro g'
  exact save_none g' mro inst.dict

theorem C10_rollback_via_delete_reenters_create_witness :
    (_create gU mroU instU [("name", PyVal.str "alice")]).2.1
        = { instU with node := Option.none }
    ∧ (∀ g' : Globals, save g' mroU { instU with node := Option.none }
        = _create g' mroU { instU with node := Option.none }
            (propertiesOf { instU with node := Option.none })) := by
  have hup : _update_index (createdStore gU mroU [("name", PyVal.str "alice")]) mroU
      [("name", PyVal.str "alice")] (createdId gU mroU [("name", PyVal.str "alice")])
      = ((_update_index (createdStore gU mroU [("name", PyVal.str "alice")]) mroU
          [("name", PyVal.str "alice")] (createdId gU mroU [("name", PyVal.str "alice")])).1,
         Option.some (Err.notUnique "A supplied value is not uniquePerson/name")) := by
    rfl
  have h := C10_rollback_via_delete_reenters_create gU mroU instU
    [("name", PyVal.str "alice")] _ _ hup
  exact ⟨h.2.1, h.2.2.2⟩

/-- C7: `save` on a persisted instance overwrites all store-side
properties of its node with the current `properties` snapshot, removes
the instance's existing entries from the concrete type's own index only
— entries of every other index for the node survive, entries of every
other node survive untouched (own index included), and every own-index
entry for the node left afterwards is exactly a snapshot binding written
by the re-run update, so no stale pre-existing entry (old key or old
value) remains — re-runs the index update, and returns the instance
itself; `save` on a transient instance delegates to the create path. -/
theorem C7_save_contract (g : Globals) (mro : List NodeClass) (inst : Instance) :
    (∀ nid, inst.node = Option.some nid →
      (save g mro inst).2.1 = inst
      ∧ (∀ n, n ∈ (save g mro inst).1.store.nodes → n.id = nid →
          n.props = propertiesOf inst)
      ∧ (∀ e, e ∈ g.store.entries → e.nodeId = nid → e.idx ≠ idxNameOf mro →
          e ∈ (save g mro inst).1.store.entries)
      ∧ (∀ e, e ∈ g.store.entries → e.nodeId ≠ nid →
          e ∈ (save g mro inst).1.store.entries)
      ∧ (∀ e, e ∈ (save g mro inst).1.store.entries → e.idx = idxNameOf mro →
          e.nodeId = nid → (e.key, e.val) ∈ propertiesOf inst))
    ∧ (inst.node = Option.none →
        save g mro inst = _create g mro inst (propertiesOf inst)) := by
  constructor
  · intro nid hn
    obtain ⟨d, nd⟩ := inst
    have hnd : nd = Option.some nid := hn
    subst hnd
    rw [save_some g mro d nid]
    cases hu : _update_index
        (indexRemoveEntity
          (storeSetProps g.store nid (propertiesOf ⟨d, Option.some nid⟩))
          (idxNameOf mro) nid)
        mro (propertiesOf ⟨d, Option.some nid⟩) nid with
    | mk s3 r3 =>
        obtain ⟨f1, -, -, f4, f5⟩ := update_index_frame mro _ _ _ s3 r3 hu
        have hBranch : (match (s3, r3) with
            | (s3, Option.none) =>
               ({ g with store := s3 }, (⟨d, Option.some nid⟩ : Instance), Option.none)
            | (s3, Option.some e) =>
               ({ g with store := s3 }, (⟨d, Option.some nid⟩ : Instance), Option.some e)).1.store
            = s3 := by
          cases r3 <;> rfl
        have hInst : (match (s3, r3) with
            | (s3, Option.none) =>
               ({ g with store := s3 }, (⟨d, Option.some nid⟩ : Instance), Option.none)
            | (s3, Option.some e) =>
               ({ g with store := s3 }, (⟨d, Option.some nid⟩ : Instance), Option.some e)).2.1
            = ⟨d, Option.some nid⟩ := by
          cases r3 <;> rfl
        rw [hBranch, hInst]
        refine ⟨rfl, ?_, ?_, ?_, ?_⟩
        · intro n hn2 hid
          rw [f1] at hn2
          have hn3 : n ∈ g.store.nodes.map
              (fun n0 => if n0.id = nid
                then { n0 with props := propertiesOf (⟨d, Option.some nid⟩ : Instance) }
                else n0) := hn2
          obtain ⟨n0, hn0, hmap⟩ := List.mem_map.mp hn3
          by_cases h0 : n0.id = nid
          · rw [if_pos h0] at hmap
            rw [← hmap]
          · rw [if_neg h0] at hmap
            rw [← hmap] at hid
            exact absurd hid h0
        · intro e he hnid hidx
          apply f4
          have he2 : e ∈ (storeSetProps g.store nid
              (propertiesOf (⟨d, Option.some nid⟩ : Instance))).entries := he
          show e ∈ List.filter _ _
          refine List.mem_filter.mpr ⟨he2, ?_⟩
          simp only [Bool.not_eq_true']
          refine decide_eq_false ?_
          intro hcon
          exact hidx hcon.1
        · intro e he hnid
          apply f4
          have he2 : e ∈ (storeSetProps g.store nid
              (propertiesOf (⟨d, Option.some nid⟩ : Instance))).entries := he
          show e ∈ List.filter _ _
          refine List.mem_filter.mpr ⟨he2, ?_⟩
          simp only [Bool.not_eq_true']
          refine decide_eq_false ?_
          intro hcon
          exact hnid hcon.2
        · intro e he hidx hnid
          rcases f5 e he with he2 | hp
          · have he3 : e ∈ List.filter
                (fun e0 => !(decide (e0.idx = idxNameOf mro ∧ e0.nodeId = nid)))
                (storeSetProps g.store nid
                  (propertiesOf (⟨d, Option.some nid⟩ : Instance))).entries := he2
            have := (List.mem_filter.mp he3).2
            simp only [Bool.not_eq_true', decide_eq_false_iff_not] at this
            exact absurd ⟨hidx, hnid⟩ this
          · exact hp.2
  · intro hl
    obtain ⟨d, nd⟩ := inst
    have hnd : nd = Option.none := hl
    subst hnd
    exact save_none g mro d

theorem C7_save_contract_witness :
    (save gU mroU instP).2.1 = instP
    ∧ (∀ n, n ∈ (save gU mroU instP).1.store.nodes → n.id = 0 →
        n.props = propertiesOf instP)
    ∧ (⟨"Person", "name", PyVal.str "alice", 0⟩ : IndexEntry)
        ∉ (save gU mroU instP).1.store.entries := by
  have h := (C7_save_contract gU mroU instP).1 0 (by rfl)
  refine ⟨h.1, h.2.1, ?_⟩
  intro hmem
  have hval := h.2.2.2.2 ⟨"Person", "name", PyVal.str "alice", 0⟩ hmem (by rfl) (by rfl)
  exact absurd hval (by decide)

/-- C2: the index update walks the ancestor chain stopping before the
root base types (`StructuredNode` / `ReadOnlyNode`); for each ancestor
declaring a supplied property it batches the eligible writes — the atomic
`add_indexed_node_or_fail` for unique-indexed properties when the store
supports it, the non-atomic `get_or_add_indexed_node` fallback when it
does not, the plain add for merely indexed ones; the atomic primitive
fails on an occupied slot; and any conflict — a raised resource conflict
or a batch result whose 200 status signals "value already indexed" — is
translated into a single `NotUnique` naming the offending resource. -/
theorem C2_update_index_contract :
    (∀ (s : Store) (mro : List NodeClass) (props : List (String × PyVal)) (nid : Nat),
      _update_index s mro props nid = updateClasses s (activeAncestors mro) props nid)
    ∧ (∀ (s : Store) (cls : NodeClass) (k : String) (v : PyVal) (nid : Nat) (p : Property),
        lookupAttrCls cls k = Option.some (ClassAttr.prop p) →
        (p.unique_index = true →
          buildOp s cls k v nid = Except.ok (Option.some
            (if s.supportsAddOrFail then BatchOp.addOrFail cls.indexName k v nid
             else BatchOp.getOrAdd cls.indexName k v nid)))
        ∧ (p.unique_index = false → p.index = true →
          buildOp s cls k v nid
            = Except.ok (Option.some (BatchOp.add cls.indexName k v nid))))
    ∧ (∀ (s : Store) (idx k : String) (v : PyVal) (nid : Nat) (more : List BatchOp),
        hasEntry s idx k v = true →
        submitOps s (BatchOp.addOrFail idx k v nid :: more) = Except.error (entryUri idx k))
    ∧ (∀ (s : Store) (cls : NodeClass) (props : List (String × PyVal)) (nid : Nat)
        (ops : List BatchOp) (uri : String),
        buildBatch s cls props nid = Except.ok ops →
        submitOps s ops = Except.error uri →
        updateClass s cls props nid
          = (s, Option.some (Err.notUnique ("A supplied value is not unique" ++ uri))))
    ∧ (∀ (s : Store) (cls : NodeClass) (props : List (String × PyVal)) (nid : Nat)
        (ops : List BatchOp) (s' : Store) (rs : List BatchResult) (uri : String),
        buildBatch s cls props nid = Except.ok ops →
        submitOps s ops = Except.ok (s', rs) → scanResults rs = Option.some uri →
        updateClass s cls props nid
          = (s', Option.some (Err.notUnique ("A supplied value is not unique" ++ uri))))
    ∧ (∀ rs : List BatchResult,
        (scanResults rs).isSome = rs.any (fun r => decide (r.status = 200))) := by
  refine ⟨fun s mro props nid => update_index_eq_active mro s props nid, ?_, ?_, ?_, ?_, scanResults_isSome⟩
  · intro s cls k v nid p h
    constructor
    · intro hu
      simp [buildOp, h, hu]
    · intro hu hi
      simp [buildOp, h, hu, hi]
  · intro s idx k v nid more h
    simp [submitOps, h]
  · intro s cls props nid ops uri hb hsub
    simp [updateClass, hb, hsub]
  · intro s cls props nid ops s' rs uri hb hsub hscan
    simp [updateClass, hb, hsub, hscan]

theorem C2_update_index_contract_witness :
    updateClass storeU clsU [("name", PyVal.str "alice")] 5
      = (storeU, Option.some (Err.notUnique "A supplied value is not uniquePerson/name"))
    ∧ _update_index storeU mroU [("name", PyVal.str "alice")] 5
      = updateClasses storeU (activeAncestors mroU) [("name", PyVal.str "alice")] 5
    ∧ buildOp storeU clsU "name" (PyVal.str "alice") 5
      = Except.ok (Option.some (BatchOp.addOrFail "Person" "name" (PyVal.str "alice") 5)) := by
  refine ⟨?_, C2_update_index_contract.1 storeU mroU [("name", PyVal.str "alice")] 5, ?_⟩
  · exact C2_update_index_contract.2.2.2.1 storeU clsU [("name", PyVal.str "alice")] 5
      [BatchOp.addOrFail "Person" "name" (PyVal.str "alice") 5] "Person/name"
      (by rfl) (by rfl)
  · have h := (C2_update_index_contract.2.1 storeU clsU "name" (PyVal.str "alice") 5 pUniq
      (by rfl)).1 (by rfl)
    exact h

theorem initNode_decomp (mro : List NodeClass) (kwargs : List (String × PyVal))
    (i0 : Instance) (ha : applyKwargs mro kwargs = Except.ok i0) :
    initNode mro kwargs = (fillDefaults (ownOf mro) i0).map
      (fun i1 => { i1 with node := Option.none }) := by
  unfold initNode
  rw [ha, show (Except.ok i0 : Except Err Instance) = pure i0 from rfl, pure_bind]
  cases hf : fillDefaults (ownOf mro) i0 with
  | error e => rfl
  | ok i1 => rfl

theorem initNode_error_of_apply (mro : List NodeClass) (kwargs : List (String × PyVal))
    (e : Err) (ha : applyKwargs mro kwargs = Except.error e) :
    initNode mro kwargs = Except.error e := by
  unfold initNode
  rw [ha]
  rfl

/-- C5 (amended): with "declared" read as declared in the record type's
OWN class body (core.py:124 walks `self.__class__.__dict__` only, so
properties declared on ancestors are neither defaulted nor checked):
every own-declared property not supplied is set to the null marker unless
required — a required own-declared property missing from the keywords
makes construction fail with `RequiredProperty` naming such a missing
own-declared required property. -/
theorem C5_init_own_declared_contract (mro : List NodeClass)
    (kwargs : List (String × PyVal))
    (hnd : ((ownOf mro).map Prod.fst).Nodup) :
    (∀ i, initNode mro kwargs = Except.ok i →
      ∀ k p, (k, ClassAttr.prop p) ∈ ownOf mro → startsUnderscore k = false →
        k ∉ kwargs.map Prod.fst →
        p.required = false ∧ lookupD i.dict k = Option.some PyVal.none)
    ∧ (∀ i0, applyKwargs mro kwargs = Except.ok i0 →
      (∃ k p, (k, ClassAttr.prop p) ∈ ownOf mro ∧ startsUnderscore k = false ∧
        p.required = true ∧ k ∉ kwargs.map Prod.fst) →
      ∃ k' p', initNode mro kwargs = Except.error (Err.requiredProperty k')
        ∧ (k', ClassAttr.prop p') ∈ ownOf mro ∧ p'.required = true
        ∧ k' ∉ kwargs.map Prod.fst) := by
  constructor
  · intro i h k p hmem hus hnot
    cases ha : applyKwargs mro kwargs with
    | error e => rw [initNode_error_of_apply mro kwargs e ha] at h; exact Except.noConfusion h
    | ok i0 =>
        rw [initNode_decomp mro kwargs i0 ha] at h
        cases hf : fillDefaults (ownOf mro) i0 with
        | error e => rw [hf] at h; exact Except.noConfusion h
        | ok i1 =>
            rw [hf] at h
            obtain rfl : { i1 with node := Option.none } = i := Except.ok.inj h
            have ha2 : kwargs.foldlM (fun inst kv => setattrI mro inst kv.1 kv.2)
                ⟨[], Option.none⟩ = Except.ok i0 := ha
            have hnone : lookupD i0.dict k = Option.none := by
              have := (kwargsFold_ok mro kwargs ⟨[], Option.none⟩ i0 ha2).2.1 k hnot
              rw [this]
              rfl
            obtain ⟨hreq, hlook⟩ :=
              fillDefaults_ok (ownOf mro) hnd i0 i1 hf k p hmem hus hnone
            exact ⟨hreq, hlook⟩
  · intro i0 ha hex
    obtain ⟨k, p, hmem, hus, hreq, hnot⟩ := hex
    have ha2 : kwargs.foldlM (fun inst kv => setattrI mro inst kv.1 kv.2)
        ⟨[], Option.none⟩ = Except.ok i0 := ha
    have hnone : lookupD i0.dict k = Option.none := by
      have := (kwargsFold_ok mro kwargs ⟨[], Option.none⟩ i0 ha2).2.1 k hnot
      rw [this]
      rfl
    obtain ⟨k', p', herr, hmem', hus', hreq', hnone'⟩ :=
      fillDefaults_missing (ownOf mro) hnd i0 ⟨k, p, hmem, hus, hreq, hnone⟩
    refine ⟨k', p', ?_, hmem', hreq', ?_⟩
    · rw [initNode_decomp mro kwargs i0 ha, herr]
      rfl
    · intro hk'
      obtain ⟨kv, hkv, hkv1⟩ := List.mem_map.mp hk'
      have := (kwargsFold_ok mro kwargs ⟨[], Option.none⟩ i0 ha2).2.2.1 kv.1 kv.2
        (by cases kv; exact hkv)
      rw [hkv1, hnone'] at this
      simp at this

theorem C5_init_own_declared_contract_witness :
    pIdx.required = false
    ∧ lookupD ((⟨[("name", PyVal.str "a"), ("age", PyVal.none)], Option.none⟩ : Instance)).dict
        "age" = Option.some PyVal.none := by
  have h := (C5_init_own_declared_contract mroPerson [("name", PyVal.str "a")]
      (by simp [ownOf, mroPerson, clsPerson])).1
    ⟨[("name", PyVal.str "a"), ("age", PyVal.none)], Option.none⟩ (by rfl)
    "age" pIdx (List.mem_cons_of_mem _ (List.mem_cons_self _ _)) (by rfl)
    (by simp)
  exact h

/-- C6 (amended): the `properties` snapshot contains exactly the instance
attributes currently set to non-null values, excluding private-prefix
names, callables, and relationship managers — with no filter on being a
declared property, so an unrecognized keyword accepted at construction
(here: a name with no class attribute at all, passing those filters) IS
included in the persisted payload rather than excluded. -/
theorem C6_properties_snapshot_semantics (inst : Instance) (k : String) (v : PyVal) :
    ((k, v) ∈ propertiesOf inst ↔
      ((k, v) ∈ inst.dict ∧ startsUnderscore k = false ∧ v.isMethod = false
        ∧ v.isRelManager = false ∧ v ≠ PyVal.none))
    ∧ (∀ (mro : List NodeClass) (kwargs : List (String × PyVal)) (i : Instance),
        (kwargs.map Prod.fst).Nodup →
        classGetAttr mro k = Option.none → startsUnderscore k = false →
        (k, v) ∈ kwargs → initNode mro kwargs = Except.ok i →
        v.isMethod = false → v.isRelManager = false → v ≠ PyVal.none →
        (k, v) ∈ propertiesOf i) := by
  have hfilter : ∀ (j : Instance), ((k, v) ∈ propertiesOf j ↔
      ((k, v) ∈ j.dict ∧ startsUnderscore k = false ∧ v.isMethod = false
        ∧ v.isRelManager = false ∧ v ≠ PyVal.none)) := by
    intro j
    constructor
    · intro h
      obtain ⟨hmem, hp⟩ := List.mem_filter.mp h
      simp only [Bool.and_eq_true, Bool.not_eq_true', decide_eq_false_iff_not] at hp
      exact ⟨hmem, hp.1.1.1, hp.1.1.2, hp.1.2, hp.2⟩
    · intro ⟨hmem, h1, h2, h3, h4⟩
      refine List.mem_filter.mpr ⟨hmem, ?_⟩
      simp only [Bool.and_eq_true, Bool.not_eq_true', decide_eq_false_iff_not]
      exact ⟨⟨⟨h1, h2⟩, h3⟩, h4⟩
  refine ⟨hfilter inst, ?_⟩
  intro mro kwargs i hnd hunrec hus hkw h hm hr hv
  cases ha : applyKwargs mro kwargs with
  | error e => rw [initNode_error_of_apply mro kwargs e ha] at h; exact Except.noConfusion h
  | ok i0 =>
      rw [initNode_decomp mro kwargs i0 ha] at h
      cases hf : fillDefaults (ownOf mro) i0 with
      | error e => rw [hf] at h; exact Except.noConfusion h
      | ok i1 =>
          rw [hf] at h
          obtain rfl : { i1 with node := Option.none } = i := Except.ok.inj h
          have ha2 : kwargs.foldlM (fun inst kv => setattrI mro inst kv.1 kv.2)
              ⟨[], Option.none⟩ = Except.ok i0 := ha
          have hval : lookupD i0.dict k = Option.some v :=
            kwargsFold_value mro kwargs ⟨[], Option.none⟩ i0 hnd ha2 k v hkw
          have hval1 : lookupD i1.dict k = Option.some v := by
            have := fillDefaults_preserve (ownOf mro) i0 i1 hf k (by rw [hval]; rfl)
            rw [this, hval]
          have hmem : (k, v) ∈ i1.dict := lookupD_some_mem i1.dict k v hval1
          exact (hfilter _).mpr ⟨hmem, hus, hm, hr, hv⟩

theorem C6_properties_snapshot_semantics_witness :
    ("scratch", PyVal.str "x")
      ∈ propertiesOf (⟨[("scratch", PyVal.str "x")], Option.none⟩ : Instance) := by
  exact (C6_properties_snapshot_semantics
      ⟨[("scratch", PyVal.str "x")], Option.none⟩ "scratch" (PyVal.str "x")).2
    mroThing [("scratch", PyVal.str "x")]
    ⟨[("scratch", PyVal.str "x")], Option.none⟩
    (by simp) (by rfl) (by rfl) (List.mem_cons_self _ _) (by rfl)
    (by rfl) (by rfl) (by simp)

theorem searchFold_mem (s : Store) (mro : List NodeClass) :
    ∀ (nids : List Nat) (acc ns : List Instance),
    nids.foldlM
      (fun acc nid => do
        let i ← reconstructOne s mro nid
        Except.ok (acc ++ [i])) acc = Except.ok ns →
    ∀ inst, inst ∈ ns → inst ∈ acc
      ∨ ∃ nid, reconstructOne s mro nid = Except.ok inst := by
  intro nids
  induction nids with
  | nil =>
      intro acc ns h inst hin
      rw [List.foldlM_nil] at h
      obtain rfl : acc = ns := Except.ok.inj h
      exact Or.inl hin
  | cons nid nids ih =>
      intro acc ns h inst hin
      rw [List.foldlM_cons] at h
      cases hr : reconstructOne s mro nid with
      | error e => rw [hr] at h; exact Except.noConfusion h
      | ok i1 =>
          rw [hr] at h
          have h2 : nids.foldlM
              (fun acc nid => do
                let i ← reconstructOne s mro nid
                Except.ok (acc ++ [i])) (acc ++ [i1]) = Except.ok ns := h
          rcases ih (acc ++ [i1]) ns h2 inst hin with hacc | hex
          · rcases List.mem_append.mp hacc with hacc | hacc
            · exact Or.inl hacc
            · have : inst = i1 := List.mem_singleton.mp hacc
              subst this
              exact Or.inr ⟨nid, hr⟩
          · exact Or.inr hex

theorem reconstructOne_ok (s : Store) (mro : List NodeClass) (nid : Nat)
    (inst : Instance) (h : reconstructOne s mro nid = Except.ok inst) :
    inst.node = Option.some nid
    ∧ ∃ j, initNode mro (nodePropsOf s nid) = Except.ok j
        ∧ inst = { j with node := Option.some nid } := by
  unfold reconstructOne at h
  split at h
  · exact Except.noConfusion h
  · next j heq =>
      obtain rfl : { j with node := Option.some nid } = inst := Except.ok.inj h
      exact ⟨rfl, j, heq, rfl⟩

/-- C9 (amended): every instance returned by an index search has its
store handle set to the matched node, but it is reconstructed by passing
the matched node's properties through NORMAL construction — required and
per-value validation ARE applied to the store-supplied data (a
non-conforming stored node aborts the whole search), not bypassed. -/
theorem C9_search_reconstructs_via_init (s : Store) (mro : List NodeClass)
    (kwargs : List (String × PyVal)) (ns : List Instance)
    (h : search s mro kwargs = Except.ok ns) :
    ∀ inst, inst ∈ ns → ∃ nid, inst.node = Option.some nid
      ∧ ∃ j, initNode mro (nodePropsOf s nid) = Except.ok j
        ∧ inst = { j with node := Option.some nid } := by
  intro inst hin
  unfold search at h
  split at h
  · exact Except.noConfusion h
  · split at h
    · exact Except.noConfusion h
    · rcases searchFold_mem s mro (indexQuery s (idxNameOf mro) kwargs) [] ns h inst hin with
        hacc | ⟨nid, hrec⟩
      · simp at hacc
      · obtain ⟨hnode, j, hinit, hinst⟩ := reconstructOne_ok s mro nid inst hrec
        exact ⟨nid, hnode, j, hinit, hinst⟩

theorem C9_search_reconstructs_via_init_witness :
    ∃ nid, (⟨[("name", PyVal.str "bob"), ("age", PyVal.int 30)], Option.some 5⟩ : Instance).node
        = Option.some nid
      ∧ ∃ j, initNode mroPerson (nodePropsOf storeC9ok nid) = Except.ok j
        ∧ (⟨[("name", PyVal.str "bob"), ("age", PyVal.int 30)], Option.some 5⟩ : Instance)
            = { j with node := Option.some nid } := by
  exact C9_search_reconstructs_via_init storeC9ok mroPerson [("age", PyVal.int 30)]
    [⟨[("name", PyVal.str "bob"), ("age", PyVal.int 30)], Option.some 5⟩]
    (by rfl) _ (List.mem_cons_self _ _)
